import Mathlib

/-!
Verification development for the Kal interpreter (stack-reified evaluator with
algebraic effects).

The definitions below are a shallow embedding of the final evaluator variant of
the repository: the AST (src/ast.rs), the step objects and their `eval` bodies
(src/eval_impls.rs), the drive loop and context stacks (the `Interpreter` of
src/new_interpreter/mod.rs, which the final `interpreter` module extends with a
`Loop` sub-context kind used by src/eval_impls.rs), the pattern binder
(src/eval_impls.rs), the reference-count cells (src/kal_ref.rs and
src/types/ref_mut.rs) and the core scope (src/core.rs).

Modelling conventions:
  * Rust `panic!` / `.expect` / `.unwrap` failures become `none` (a fatal,
    non-recoverable abort of the drive loop).
  * `i64` is modelled as `Int`; the single place where the value range matters
    to a claim (negation of `i64::MIN`) carries the explicit bound `i64min`.
    Addition/subtraction/multiplication are not wrapped (no claim exercises
    overflow).
  * `HashMap` (object payloads and scope bindings) is modelled as an
    association list where insertion prepends; lookup finds the most recent
    insertion, which is observably the map behaviour used by the evaluator.
  * Reference-count aliasing of scopes, lists and effects is not tracked inside
    the machine (the machine never aliases them on the executions the claims
    quantify over); the reference-count discipline itself is modelled
    separately, on the cells of kal_ref.rs / types/ref_mut.rs.
  * Steps execute on explicit stacks; a Rust `Vec` used as a stack is modelled
    as a `List` whose head is the top of the stack.
-/

/-! ### AST (src/ast.rs) -/

inductive NumericOperator
  | Add | Multiply | Subtract | Divide
deriving Repr, DecidableEq

inductive ComparisonOperator
  | Equal | NotEqual | LessEqual | Less | GreaterEqual | Greater
deriving Repr, DecidableEq

inductive BooleanOperator
  | And | Or | Xor
deriving Repr, DecidableEq

inductive SpreadPattern
  | Unnamed
  | Named (name : String)
deriving Repr, DecidableEq

inductive ObjectFinalPattern
  | Spread (name : String)
  | SpreadNameless
  | Wildcard
deriving Repr, DecidableEq

mutual

/-- The pattern AST (src/ast.rs lines 255–301).  The source's
`Vec<ListSubPattern>` and `Option<(SpreadPattern, Vec<ListSubPattern>)>`
fields are inlined into the inductive family (a spine form carrying the same
information) so that the pattern binder below is structurally recursive. -/
inductive ListSubPattern
  | Ident (name : String)
  | List (p : ListPattern)
  | Object (p : ObjectPattern)

/-- A `Vec<ListSubPattern>`. -/
inductive ListSubPatterns
  | nil
  | cons (p : ListSubPattern) (ps : ListSubPatterns)

/-- An `Option<(SpreadPattern, Vec<ListSubPattern>)>`. -/
inductive ListPatternTail
  | noSpread
  | spread (s : SpreadPattern) (after : ListSubPatterns)

inductive ListPattern
  | mk (before_patterns : ListSubPatterns) (spread_and_after_patterns : ListPatternTail)

inductive ObjectSubPattern
  | Ident (name : String)
  | List (name : String) (p : ListPattern)
  | Object (name : String) (p : ObjectPattern)

/-- A `Vec<ObjectSubPattern>`. -/
inductive ObjectSubPatterns
  | nil
  | cons (p : ObjectSubPattern) (ps : ObjectSubPatterns)

inductive ObjectPattern
  | mk (patterns : ObjectSubPatterns) (final_pattern : Option ObjectFinalPattern)

end

def ListSubPatterns.length : ListSubPatterns → Nat
  | .nil => 0
  | .cons _ ps => ps.length + 1

/-- The identifier-only spine `[n1, n2, ...]` (each a `ListSubPattern.Ident`). -/
def identSpine : List String → ListSubPatterns
  | [] => .nil
  | n :: ns => .cons (.Ident n) (identSpine ns)

inductive LetPattern
  | Ident (name : String)
  | List (p : ListPattern)
  | Object (p : ObjectPattern)

mutual

/-- The expression language (the sublanguage of src/ast.rs that the claims
quantify over; dot/index/object-literal/assignment/closure nodes play no part
in any claim and are omitted).  `Wrapper` is the `WrapperFunction` step of
src/eval_impls.rs exposed as an expression former: the parser (outside src/)
arranges for the program body and each `handle` operand to evaluate inside its
own function context, and `WrapperFunction` is the step src/ provides for
exactly that. -/
inductive Expression
  | Null
  | Bool (b : Bool)
  | Int (i : Int)
  | Ident (name : String)
  | Negative (expr : Expression)
  | Not (expr : Expression)
  | Numeric (operator : NumericOperator) (left right : Expression)
  | Comparison (operator : ComparisonOperator) (left right : Expression)
  | Boolean (operator : BooleanOperator) (left right : Expression)
  | If (ifs : List IfPart) (else_body : Option Block)
  | Loop (body : Block)
  | ListLit (elems : List ListElem)
  | Blk (b : Block)
  | Handle (expr : Expression) (match_arms : List HandleMatch)
  | Send (symbol : String) (expr : Option Expression)
  | Continue (expr : Option Expression)
  | Break (expr : Option Expression)
  | Wrapper (body : Expression)

inductive IfPart
  | mk (cond : Expression) (body : Block)

inductive HandleMatch
  | mk (symbol : String) (param : String) (block : Block)

inductive ListElem
  | Spread (e : Expression)
  | Elem (e : Expression)

inductive Statement
  | ExpressionStatement (expr : Expression)
  | Let (pattern : LetPattern) (expr : Expression)

inductive Block
  | mk (statements : List Statement) (expression : Option Expression)

end

def IfPart.cond : IfPart → Expression
  | .mk c _ => c

def IfPart.body : IfPart → Block
  | .mk _ b => b

def HandleMatch.symbol : HandleMatch → String
  | .mk s _ _ => s

def HandleMatch.param : HandleMatch → String
  | .mk _ p _ => p

def HandleMatch.block : HandleMatch → Block
  | .mk _ _ b => b

/-! ### Step objects (the `Eval` implementations of src/eval_impls.rs)

Each constructor is one of the step types pushed on the instruction stack: the
AST nodes themselves (`Expr`, `Stmt`) and the dynamically created inner steps
(the `Custom` closures and named structs of src/eval_impls.rs). -/

inductive EvalStep
  | Expr (e : Expression)
  | Stmt (s : Statement)
  | NumericInner (operator : NumericOperator)
  | ComparisonInner (operator : ComparisonOperator)
  | BooleanInner (operator : BooleanOperator)
  | NotInner
  | NegativeInner
  | IfInner (index : Nat) (ifs : List IfPart) (else_body : Option Block)
  | LoopBody (body : Block)
  | LoopContext (body : Block)
  | ListInner (elems : List ListElem)
  | IgnoreValue
  | PushScope
  | PopScope
  | LetInner (pattern : LetPattern)
  | Handler (match_arms : List (Nat × HandleMatch))
  | CreateHandler (match_arms : List HandleMatch) (expr : Expression)
  | SendInner
  | ContinueInner
  | BreakInner
  | WrapperFunctionInner

/-! ### Runtime values and contexts

`Value` is the tagged sum of the final `interpreter` module (declared in
src/new_interpreter/mod.rs and extended by the usage in src/eval_impls.rs with
the `Loop` sub-context kind and the `Intrinsic` variant).  An `Effect` value
carries a whole captured `FunctionContext`, so values and contexts are mutually
inductive.  The closure payload is opaque here (no claim constructs or calls a
closure; the source `Closure` compares unequal to everything, so only the
constructor matters to the comparison table). -/

inductive Key
  | Null
  | Bool (b : Bool)
  | Int (i : Int)
  | Symbol (n : Nat)
  | Str (s : String)
deriving Repr, DecidableEq

inductive Intrinsic
  | Symbol
deriving Repr, DecidableEq

mutual

inductive Value
  | Null
  | Bool (b : Bool)
  | Int (i : Int)
  | Symbol (n : Nat)
  | List (elems : List Value)
  | Object (fields : List (Key × Value))
  | Closure (code : Nat)
  | Effect (symbol : Nat) (value : Value) (ctx : FunctionContext)
  | Intrinsic (i : Intrinsic)

inductive Scope
  | mk (parent : Option Scope) (bindings : List (String × Value))

inductive SubContextType
  | Plain
  | Handle (handler : List (Nat × HandleMatch)) (ctx : FunctionContext)
  | Loop (body : Block)

inductive SubContext
  | mk (typ : SubContextType) (eval_stack : List EvalStep) (value_stack : List Value)

inductive FunctionContext
  | mk (scope : Scope) (sub_context_stack : List SubContext)

end

def Scope.parent : Scope → Option Scope
  | .mk p _ => p

def Scope.bindings : Scope → List (String × Value)
  | .mk _ b => b

/-- `Scope::extend` (src/new_interpreter/mod.rs). -/
def Scope.extend (parent : Scope) : Scope :=
  .mk (some parent) []

def SubContext.typ : SubContext → SubContextType
  | .mk t _ _ => t

def SubContext.eval_stack : SubContext → List EvalStep
  | .mk _ es _ => es

def SubContext.value_stack : SubContext → List Value
  | .mk _ _ vs => vs

/-- `SubContext::new` (src/new_interpreter/mod.rs). -/
def SubContext.new (typ : SubContextType) : SubContext :=
  .mk typ [] []

def FunctionContext.scope : FunctionContext → Scope
  | .mk s _ => s

def FunctionContext.sub_context_stack : FunctionContext → List SubContext
  | .mk _ s => s

/-- `FunctionContext::new` (src/new_interpreter/mod.rs). -/
def FunctionContext.new (scope : Scope) : FunctionContext :=
  .mk scope [SubContext.new .Plain]

/-! ### Value equality (`#[derive(PartialEq)]` on `Value`)

Same variant and equal payloads, except that `Closure` and `Effect` have
`PartialEq` implementations that always return `false`
(src/new_interpreter/mod.rs). -/

mutual

def valueEq : Value → Value → Bool
  | .Null, .Null => true
  | .Bool a, .Bool b => a == b
  | .Int a, .Int b => a == b
  | .Symbol a, .Symbol b => a == b
  | .List a, .List b => valueListEq a b
  | .Object a, .Object b => valueFieldsEq a b
  | .Closure _, .Closure _ => false
  | .Effect _ _ _, .Effect _ _ _ => false
  | .Intrinsic a, .Intrinsic b => a == b
  | _, _ => false

def valueListEq : List Value → List Value → Bool
  | [], [] => true
  | a :: as', b :: bs' => valueEq a b && valueListEq as' bs'
  | _, _ => false

def valueFieldsEq : List (Key × Value) → List (Key × Value) → Bool
  | [], [] => true
  | (k, a) :: as', (l, b) :: bs' => k == l && valueEq a b && valueFieldsEq as' bs'
  | _, _ => false

end

/-! ### The comparison table (`ComparisonInner`, src/eval_impls.rs lines 84–190)

A direct transcription of the `match` over `(operator, &left, &right)`; like
the Rust `match`, earlier arms take precedence.  `none` is the
`fail` panic. -/

def fullCompare (operator : ComparisonOperator) (left right : Int) : Bool :=
  match operator with
  | .Equal => left == right
  | .NotEqual => left != right
  | .Less => left < right
  | .Greater => left > right
  | .LessEqual => left ≤ right
  | .GreaterEqual => left ≥ right

def comparisonResult (operator : ComparisonOperator) (left right : Value) : Option Bool :=
  match operator, left, right with
  | .Equal, .Null, .Null => some (valueEq left right)
  | .NotEqual, .Null, .Null => some (!valueEq left right)
  | _, .Null, .Null => none

  | .Equal, .Bool a, .Bool b => some (a == b)
  | .NotEqual, .Bool a, .Bool b => some (a != b)
  | _, .Bool _, .Bool _ => none

  | op, .Int a, .Int b => some (fullCompare op a b)

  | .Equal, .Symbol a, .Symbol b => some (a == b)
  | .NotEqual, .Symbol a, .Symbol b => some (a != b)
  | _, .Symbol _, .Symbol _ => none

  | .Equal, .List a, .List b => some (valueListEq a b)
  | .NotEqual, .List a, .List b => some (!valueListEq a b)
  | _, .List _, .List _ => none

  | .Equal, .Object a, .Object b => some (valueFieldsEq a b)
  | .NotEqual, .Object a, .Object b => some (!valueFieldsEq a b)
  | _, .Object _, .List _ => none

  | .Equal, .Closure _, .Closure _ => some (valueEq left right)
  | .NotEqual, .Closure _, .Closure _ => some (!valueEq left right)
  | _, .Closure _, .Closure _ => none

  | .Equal, .Effect _ _ _, .Effect _ _ _ => some (valueEq left right)
  | .NotEqual, .Effect _ _ _, .Effect _ _ _ => some (!valueEq left right)
  | _, .Effect _ _ _, .Effect _ _ _ => none

  | .Equal, .Intrinsic a, .Intrinsic b => some (a == b)
  | .NotEqual, .Intrinsic a, .Intrinsic b => some (a != b)
  | _, .Intrinsic _, .Intrinsic _ => none

  | .Equal, .Null, _ => some false
  | .NotEqual, .Null, _ => some true
  | _, .Null, _ => none

  | .Equal, .Bool _, _ => some false
  | .NotEqual, .Bool _, _ => some true
  | _, .Bool _, _ => none

  | .Equal, .Int _, _ => some false
  | .NotEqual, .Int _, _ => some true
  | _, .Int _, _ => none

  | .Equal, .Symbol _, _ => some false
  | .NotEqual, .Symbol _, _ => some true
  | _, .Symbol _, _ => none

  | .Equal, .List _, _ => some false
  | .NotEqual, .List _, _ => some true
  | _, .List _, _ => none

  | .Equal, .Object _, _ => some false
  | .NotEqual, .Object _, _ => some true
  | _, .Object _, _ => none

  | .Equal, .Closure _, _ => some false
  | .NotEqual, .Closure _, _ => some true
  | _, .Closure _, _ => none

  | .Equal, .Effect _ _ _, _ => some false
  | .NotEqual, .Effect _ _ _, _ => some true
  | _, .Effect _ _ _, _ => none

  | .Equal, .Intrinsic _, _ => some false
  | .NotEqual, .Intrinsic _, _ => some true
  | _, .Intrinsic _, _ => none

/-! ### Arithmetic and boolean combiners -/

/-- `i64::MIN`. -/
def i64min : Int := -(2 ^ 63)

/-- The operator table of `NumericInner` (src/eval_impls.rs lines 685–691).
Division by zero is a Rust panic, hence `none`; `Int.tdiv` is Rust's
truncating `/`. -/
def numericResult (operator : NumericOperator) (left right : Int) : Option Int :=
  match operator with
  | .Add => some (left + right)
  | .Multiply => some (left * right)
  | .Subtract => some (left - right)
  | .Divide => if right == 0 then none else some (Int.tdiv left right)

/-- The operator table of `BooleanInner` (src/eval_impls.rs lines 724–728). -/
def booleanResult (operator : BooleanOperator) (left right : Bool) : Bool :=
  match operator with
  | .And => left && right
  | .Or => left || right
  | .Xor => (!left && right) || (!right && left)

/-! ### Scope operations

`resolve_binding` walks parent pointers (the `Eval` impl for `String`;
src/new_interpreter/eval_impls.rs lines 405–425 shows the same walk inline).
`create_binding` inserts into the current scope's map. -/

def lookupBinding (bindings : List (String × Value)) (name : String) : Option Value :=
  match bindings with
  | [] => none
  | (k, v) :: rest => if k == name then some v else lookupBinding rest name

def Scope.resolve_binding : Scope → String → Option Value
  | .mk parent bindings, name =>
    match lookupBinding bindings name with
    | some v => some v
    | none =>
      match parent with
      | some p => p.resolve_binding name
      | none => none

/-- `HashMap::insert` on a scope's bindings, modelled by prepending. -/
def Scope.insert (scope : Scope) (name : String) (v : Value) : Scope :=
  .mk scope.parent ((name, v) :: scope.bindings)

/-! ### The pattern binder (src/eval_impls.rs lines 497–630)

The binder is modelled as a function from pattern and value to the ordered
list of bindings it creates (`create_binding` calls, in call order), `none`
standing for the panics.  `Rc::try_unwrap` on the destructured aggregate is
assumed to succeed: the machine below never aliases a value it destructures,
matching the uniqueness premises of the claims. -/

/-- `HashMap::remove` for an object used as a map: drops the first (unique)
occurrence of the string key, returning the removed value and the rest. -/
def removeField (fields : List (Key × Value)) (name : String) :
    Option (Value × List (Key × Value)) :=
  match fields with
  | [] => none
  | (k, v) :: rest =>
    if k == Key.Str name then some (v, rest)
    else
      match removeField rest name with
      | some (w, rest') => some (w, (k, v) :: rest')
      | none => none

/-- The `Wildcard` tail: every remaining string-keyed entry becomes a binding;
non-string keys are dropped. -/
def wildcardBindings (fields : List (Key × Value)) : List (String × Value) :=
  match fields with
  | [] => []
  | (Key.Str s, v) :: rest => (s, v) :: wildcardBindings rest
  | _ :: rest => wildcardBindings rest

mutual

/-- `bind_subpattern` (src/eval_impls.rs lines 572–598): consumes the next
value of the iterator; `none` is the "not enough values" panic or a nested
mismatch.  In the `List` case the unwrap of `do_list_pattern_bindings`
(destructure the list value) is inlined so the recursion is structural on the
pattern. -/
def bind_subpattern : (p : ListSubPattern) → List Value →
    Option (List (String × Value) × List Value)
  | .Ident name, vals =>
    match vals with
    | [] => none
    | v :: rest => some ([(name, v)], rest)
  | .List p, vals =>
    match vals with
    | [] => none
    | .List l :: rest =>
      match do_list_pattern_bindings_no_unwrap p l with
      | some bs => some (bs, rest)
      | none => none
    | _ :: _ => none
  | .Object p, vals =>
    match vals with
    | [] => none
    | v :: rest =>
      match do_object_pattern_bindings p v with
      | some bs => some (bs, rest)
      | none => none
termination_by p => sizeOf p

def bind_subpatterns : (ps : ListSubPatterns) → List Value →
    Option (List (String × Value) × List Value)
  | .nil, vals => some ([], vals)
  | .cons p ps, vals =>
    match bind_subpattern p vals with
    | none => none
    | some (bs, rest) =>
      match bind_subpatterns ps rest with
      | none => none
      | some (bs', rest') => some (bs ++ bs', rest')
termination_by ps => sizeOf ps

/-- The spread binding of `do_list_pattern_bindings_no_unwrap`: a named
spread binds the middle slice as a `List`, an anonymous one is discarded. -/
def spread_wrap (spread : SpreadPattern) (spread_values : List Value) :
    List (String × Value) :=
  match spread with
  | .Named name => [(name, Value.List spread_values)]
  | .Unnamed => []

/-- The tail of `do_list_pattern_bindings_no_unwrap` after the after-patterns
have been bound: the final `vals.next()` check is the "too many params"
panic. -/
def finish_after (bs spread_bindings : List (String × Value))
    (res : Option (List (String × Value) × List Value)) :
    Option (List (String × Value)) :=
  match res with
  | none => none
  | some (bs', rest'') =>
    if rest''.isEmpty then some (bs ++ spread_bindings ++ bs') else none

/-- `do_list_pattern_bindings_no_unwrap` (src/eval_impls.rs lines 566–630).
The spread length is computed from the total number of values provided,
exactly as in the source (`n_vals_provided - (before + after)`, fatal when
negative); the final `vals.next()` check is the "too many params" panic. -/
def do_list_pattern_bindings_no_unwrap : (p : ListPattern) → List Value →
    Option (List (String × Value))
  | .mk before_patterns .noSpread, vals =>
    match bind_subpatterns before_patterns vals with
    | none => none
    | some (bs, rest) => if rest.isEmpty then some bs else none
  | .mk before_patterns (.spread spread after_params), vals =>
    match bind_subpatterns before_patterns vals with
    | none => none
    | some (bs, rest) =>
      if vals.length < before_patterns.length + after_params.length then none
      else
        finish_after bs
          (spread_wrap spread
            (rest.take (vals.length - (before_patterns.length + after_params.length))))
          (bind_subpatterns after_params
            (rest.drop (vals.length - (before_patterns.length + after_params.length))))
termination_by p => sizeOf p

/-- `do_object_pattern_bindings` (lines 497–554); the `List` case inlines the
same unwrap as `bind_subpattern`. -/
def do_object_pattern_bindings : (p : ObjectPattern) → Value → Option (List (String × Value))
  | .mk patterns none, .Object fields =>
    match object_sub_bindings patterns fields with
    | none => none
    | some (bs, _) => some bs
  | .mk patterns (some .SpreadNameless), .Object fields =>
    match object_sub_bindings patterns fields with
    | none => none
    | some (bs, _) => some bs
  | .mk patterns (some (.Spread name)), .Object fields =>
    match object_sub_bindings patterns fields with
    | none => none
    | some (bs, remaining) => some (bs ++ [(name, Value.Object remaining)])
  | .mk patterns (some .Wildcard), .Object fields =>
    match object_sub_bindings patterns fields with
    | none => none
    | some (bs, remaining) => some (bs ++ wildcardBindings remaining)
  | _, _ => none
termination_by p => sizeOf p

def object_sub_bindings : (ps : ObjectSubPatterns) → List (Key × Value) →
    Option (List (String × Value) × List (Key × Value))
  | .nil, fields => some ([], fields)
  | .cons (.Ident name) ps, fields =>
    match removeField fields name with
    | none => none
    | some (v, fields') =>
      match object_sub_bindings ps fields' with
      | none => none
      | some (bs, rest) => some ((name, v) :: bs, rest)
  | .cons (.List name p) ps, fields =>
    match removeField fields name with
    | none => none
    | some (.List l, fields') =>
      match do_list_pattern_bindings_no_unwrap p l with
      | none => none
      | some bs =>
        match object_sub_bindings ps fields' with
        | none => none
        | some (bs', rest) => some (bs ++ bs', rest)
    | some (_, _) => none
  | .cons (.Object name p) ps, fields =>
    match removeField fields name with
    | none => none
    | some (v, fields') =>
      match do_object_pattern_bindings p v with
      | none => none
      | some bs =>
        match object_sub_bindings ps fields' with
        | none => none
        | some (bs', rest) => some (bs ++ bs', rest)
termination_by ps => sizeOf ps

end

/-- `do_list_pattern_bindings` (lines 556–564): the value must be a list
(whose reference is unique, see the module comment), then the no-unwrap
binder runs. -/
def do_list_pattern_bindings : ListPattern → Value → Option (List (String × Value))
  | p, .List l => do_list_pattern_bindings_no_unwrap p l
  | _, _ => none

/-! ### The interpreter state and its primitive operations

`Interpreter` and the drive loop follow src/new_interpreter/mod.rs (the final
`interpreter` module is identical machinery plus the `Loop` sub-context kind
that src/eval_impls.rs requires).  Every `expect`-guarded operation is
`Option`-valued. -/

structure Interp where
  sym_gen : Nat
  fn_context_stack : List FunctionContext

/-- `push_eval`: prefix one step onto the current sub-context's instruction
stack. -/
def FunctionContext.push_eval : FunctionContext → EvalStep → Option FunctionContext
  | .mk _ [], _ => none
  | .mk σ (.mk t es vs :: rest), s => some (.mk σ (.mk t (s :: es) vs :: rest))

/-- Sequential `push_eval` of several steps (first list element pushed first,
so the LAST element ends on top and executes first). -/
def FunctionContext.push_evals : FunctionContext → List EvalStep → Option FunctionContext
  | .mk _ [], _ => none
  | .mk σ (.mk t es vs :: rest), steps => some (.mk σ (.mk t (steps.reverseAux es) vs :: rest))

def FunctionContext.push_value : FunctionContext → Value → Option FunctionContext
  | .mk _ [], _ => none
  | .mk σ (.mk t es vs :: rest), v => some (.mk σ (.mk t es (v :: vs) :: rest))

def FunctionContext.pop_value : FunctionContext → Option (Value × FunctionContext)
  | .mk _ [] => none
  | .mk σ (.mk t es vs :: rest) =>
    match vs with
    | [] => none
    | v :: vs' => some (v, .mk σ (.mk t es vs' :: rest))

def FunctionContext.pop_eval : FunctionContext → Option (EvalStep × FunctionContext)
  | .mk _ [] => none
  | .mk σ (.mk t es vs :: rest) =>
    match es with
    | [] => none
    | s :: es' => some (s, .mk σ (.mk t es' vs :: rest))

def FunctionContext.push_sub_context (F : FunctionContext) (sc : SubContext) : FunctionContext :=
  .mk F.scope (sc :: F.sub_context_stack)

def FunctionContext.pop_sub_context : FunctionContext → Option (SubContext × FunctionContext)
  | .mk _ [] => none
  | .mk σ (sc :: rest) => some (sc, .mk σ rest)

def FunctionContext.push_scope (F : FunctionContext) : FunctionContext :=
  .mk (Scope.extend F.scope) F.sub_context_stack

def FunctionContext.pop_scope : FunctionContext → Option FunctionContext
  | .mk σ subs =>
    match σ.parent with
    | none => none
    | some p => some (.mk p subs)

def FunctionContext.create_binding (F : FunctionContext) (name : String) (v : Value) :
    FunctionContext :=
  .mk (F.scope.insert name v) F.sub_context_stack

/-- Apply the binder's `create_binding` calls in call order. -/
def FunctionContext.create_bindings (F : FunctionContext) :
    List (String × Value) → FunctionContext
  | [] => F
  | (n, v) :: rest => (F.create_binding n v).create_bindings rest

/-- Lift a transformation of the current (topmost) function context to the
whole state. -/
def onTop (int : Interp) (f : FunctionContext → Option FunctionContext) : Option Interp :=
  match int.fn_context_stack with
  | [] => none
  | F :: fs =>
    match f F with
    | none => none
    | some F' => some ⟨int.sym_gen, F' :: fs⟩

def ListElem.expr : ListElem → Expression
  | .Spread e => e
  | .Elem e => e

/-- The `ListInner` loop (src/eval_impls.rs lines 321–344): pop one value per
literal element, splicing spreads; returns the built list and the remaining
value stack. -/
def listInnerLoop : List ListElem → List Value → Option (List Value × List Value)
  | [], vs => some ([], vs)
  | el :: els, vs =>
    match vs with
    | [] => none
    | v :: vs' =>
      match el with
      | .Spread _ =>
        match v with
        | .List l =>
          match listInnerLoop els vs' with
          | none => none
          | some (acc, r) => some (l ++ acc, r)
        | _ => none
      | .Elem _ =>
        match listInnerLoop els vs' with
        | none => none
        | some (acc, r) => some (v :: acc, r)

/-- The `CreateHandler` pop loop (src/eval_impls.rs lines 956–964): pop one
value per match arm; each must be a symbol. -/
def popSymbols : Nat → List Value → Option (List Nat × List Value)
  | 0, vs => some ([], vs)
  | n + 1, vs =>
    match vs with
    | Value.Symbol s :: vs' =>
      match popSymbols n vs' with
      | none => none
      | some (syms, r) => some (s :: syms, r)
    | _ => none

/-- One `Eval::eval` call (src/eval_impls.rs).  `none` is a panic. -/
def evalStep (step : EvalStep) (int : Interp) : Option Interp :=
  match step with
  | .Expr e =>
    match e with
    | .Null => onTop int (fun F => F.push_value .Null)
    | .Bool b => onTop int (fun F => F.push_value (.Bool b))
    | .Int i => onTop int (fun F => F.push_value (.Int i))
    | .Ident name =>
      onTop int (fun F =>
        match F.scope.resolve_binding name with
        | some v => F.push_value v
        | none => none)
    | .Negative e1 => onTop int (fun F => F.push_evals [.NegativeInner, .Expr e1])
    | .Not e1 => onTop int (fun F => F.push_evals [.NotInner, .Expr e1])
    | .Numeric op l r => onTop int (fun F => F.push_evals [.NumericInner op, .Expr l, .Expr r])
    | .Comparison op l r =>
      onTop int (fun F => F.push_evals [.ComparisonInner op, .Expr l, .Expr r])
    | .Boolean op l r => onTop int (fun F => F.push_evals [.BooleanInner op, .Expr l, .Expr r])
    | .If ifs els =>
      onTop int (fun F =>
        match ifs with
        | [] => none
        | p :: _ => F.push_evals [.IfInner 0 ifs els, .Expr p.cond])
    | .Loop body => onTop int (fun F => F.push_eval (.LoopContext body))
    | .ListLit elems =>
      onTop int (fun F =>
        F.push_evals (.ListInner elems :: elems.map (fun el => .Expr el.expr)))
    | .Blk (.mk stmts expr) =>
      onTop int (fun F =>
        F.push_evals ([.PopScope, .Expr (expr.getD .Null)] ++
          (stmts.reverse.map .Stmt) ++ [.PushScope]))
    | .Handle expr arms =>
      onTop int (fun F =>
        F.push_evals (.CreateHandler arms expr ::
          arms.map (fun arm => .Expr (.Ident arm.symbol))))
    | .Send symbol expr =>
      onTop int (fun F =>
        match F.push_eval .SendInner with
        | none => none
        | some F1 =>
          match F1.push_eval (.Expr (.Ident symbol)) with
          | none => none
          | some F2 =>
            match expr with
            | some e1 => F2.push_eval (.Expr e1)
            | none => F2.push_value .Null)
    | .Continue expr =>
      onTop int (fun F =>
        match F.push_eval .ContinueInner with
        | none => none
        | some F1 =>
          match expr with
          | some e1 => F1.push_eval (.Expr e1)
          | none => F1.push_value .Null)
    | .Break expr =>
      onTop int (fun F =>
        match F.push_eval .BreakInner with
        | none => none
        | some F1 =>
          match expr with
          | some e1 => F1.push_eval (.Expr e1)
          | none => F1.push_value .Null)
    | .Wrapper body =>
      match int.fn_context_stack with
      | [] => none
      | F :: fs =>
        match F.push_eval .WrapperFunctionInner with
        | none => none
        | some F' =>
          some ⟨int.sym_gen,
            FunctionContext.mk (Scope.extend F'.scope)
              [SubContext.mk .Plain [.Expr body] []] :: F' :: fs⟩
  | .Stmt s =>
    match s with
    | .ExpressionStatement e => onTop int (fun F => F.push_evals [.IgnoreValue, .Expr e])
    | .Let pattern e => onTop int (fun F => F.push_evals [.LetInner pattern, .Expr e])
  | .NumericInner op =>
    onTop int (fun F =>
      match F.pop_value with
      | some (.Int left, F1) =>
        match F1.pop_value with
        | some (.Int right, F2) =>
          match numericResult op left right with
          | some i => F2.push_value (.Int i)
          | none => none
        | _ => none
      | _ => none)
  | .ComparisonInner op =>
    onTop int (fun F =>
      match F.pop_value with
      | some (left, F1) =>
        match F1.pop_value with
        | some (right, F2) =>
          match comparisonResult op left right with
          | some b => F2.push_value (.Bool b)
          | none => none
        | none => none
      | none => none)
  | .BooleanInner op =>
    onTop int (fun F =>
      match F.pop_value with
      | some (.Bool left, F1) =>
        match F1.pop_value with
        | some (.Bool right, F2) => F2.push_value (.Bool (booleanResult op left right))
        | _ => none
      | _ => none)
  | .NotInner =>
    onTop int (fun F =>
      match F.pop_value with
      | some (.Bool b, F1) => F1.push_value (.Bool !b)
      | _ => none)
  | .NegativeInner =>
    onTop int (fun F =>
      match F.pop_value with
      | some (.Int i, F1) => if i == i64min then none else F1.push_value (.Int (-i))
      | _ => none)
  | .IfInner index ifs els =>
    onTop int (fun F =>
      match F.pop_value with
      | some (.Bool b, F1) =>
        match ifs[index]? with
        | none => none
        | some part =>
          if b then F1.push_eval (.Expr (.Blk part.body))
          else if index < ifs.length - 1 then
            match ifs[index + 1]? with
            | none => none
            | some part' => F1.push_evals [.IfInner (index + 1) ifs els, .Expr part'.cond]
          else
            match els with
            | some b' => F1.push_eval (.Expr (.Blk b'))
            | none => F1.push_value .Null
      | _ => none)
  | .LoopBody body =>
    onTop int (fun F => F.push_evals [.LoopBody body, .IgnoreValue, .Expr (.Blk body)])
  | .LoopContext body =>
    onTop int (fun F =>
      some (FunctionContext.mk F.scope
        (SubContext.mk (.Loop body) [.LoopBody body] [] :: F.sub_context_stack)))
  | .ListInner elems =>
    onTop int (fun F =>
      match F with
      | .mk _ [] => none
      | .mk σ (.mk t es vs :: rest) =>
        match listInnerLoop elems vs with
        | none => none
        | some (acc, vs') => some (.mk σ (.mk t es (Value.List acc :: vs') :: rest)))
  | .IgnoreValue =>
    onTop int (fun F =>
      match F.pop_value with
      | some (_, F1) => some F1
      | none => none)
  | .PushScope => onTop int (fun F => some F.push_scope)
  | .PopScope => onTop int (fun F => F.pop_scope)
  | .LetInner pattern =>
    onTop int (fun F =>
      match F.pop_value with
      | none => none
      | some (v, F1) =>
        match pattern with
        | .Ident name => some (F1.create_binding name v)
        | .List p =>
          match do_list_pattern_bindings p v with
          | some bs => some (F1.create_bindings bs)
          | none => none
        | .Object p =>
          match do_object_pattern_bindings p v with
          | some bs => some (F1.create_bindings bs)
          | none => none)
  | .Handler arms =>
    onTop int (fun F =>
      match F.pop_value with
      | none => none
      | some (v, F1) =>
        match v with
        | .Effect symbol value ctx =>
          match arms.find? (fun a => a.1 == symbol) with
          | some (_, arm) =>
            some (F1.push_sub_context
              (SubContext.mk (.Handle arms ctx)
                [.PushScope, .LetInner (.Ident arm.param), .Expr (.Blk arm.block), .PopScope]
                [value]))
          | none =>
            some (F1.push_sub_context
              (SubContext.mk (.Handle arms ctx)
                [.SendInner, .ContinueInner]
                [Value.Symbol symbol, value]))
        | _ => F1.push_value v)
  | .CreateHandler arms expr =>
    onTop int (fun F =>
      match F with
      | .mk _ [] => none
      | .mk σ (.mk t es vs :: rest) =>
        match popSymbols arms.length vs with
        | none => none
        | some (syms, vs') =>
          some (.mk σ (.mk t (.Expr expr :: .Handler (syms.zip arms) :: es) vs' :: rest)))
  | .SendInner =>
    match int.fn_context_stack with
    | [] => none
    | F :: fs =>
      match F.pop_value with
      | some (.Symbol symbol, F1) =>
        match F1.pop_value with
        | none => none
        | some (value, ctx) =>
          match fs with
          | [] => none
          | F2 :: fs2 =>
            match F2.push_value (.Effect symbol value ctx) with
            | none => none
            | some F2' => some ⟨int.sym_gen, F2' :: fs2⟩
      | _ => none
  | .ContinueInner =>
    match int.fn_context_stack with
    | [] => none
    | F :: fs =>
      match F.pop_value with
      | none => none
      | some (v, F1) =>
        match F1.pop_sub_context with
        | none => none
        | some (sc, F2) =>
          match sc.typ with
          | .Plain => none
          | .Handle arms ctx =>
            match F2.push_eval (.Handler arms) with
            | none => none
            | some F3 =>
              match ctx.push_value v with
              | none => none
              | some ctx' => some ⟨int.sym_gen, ctx' :: F3 :: fs⟩
          | .Loop body =>
            match F2.push_eval (.LoopContext body) with
            | none => none
            | some F3 => some ⟨int.sym_gen, F3 :: fs⟩
  | .BreakInner =>
    onTop int (fun F =>
      match F.pop_value with
      | none => none
      | some (v, F1) =>
        match F1.pop_sub_context with
        | none => none
        | some (sc, F2) =>
          match sc.typ with
          | .Plain => none
          | .Handle _ _ => F2.push_value v
          | .Loop _ => F2.push_value v)
  | .WrapperFunctionInner =>
    onTop int (fun F =>
      match F.pop_value with
      | some (v, F1) => F1.push_value v
      | none => none)

/-! ### The drive loop (`Interpreter::eval`, src/new_interpreter/mod.rs lines 206–239)

One iteration of the innermost loop: pop a step, run it, and, when the current
instruction stack has emptied, pop the sub-context's result value and cascade
through the middle/outer loops exactly once. -/

inductive StepOutcome
  | next (st : Interp)
  | done (v : Value)
  | fatal

/-- The post-step bookkeeping of the three nested loops: if the current
instruction stack emptied, pop the leftover value, pop the sub-context, and
either finish, or deliver the value to the enclosing sub-context or function
context. -/
def afterStep (st : Interp) : StepOutcome :=
  match st.fn_context_stack with
  | [] => .fatal
  | FunctionContext.mk σ subs :: fs =>
    match subs with
    | [] => .fatal
    | SubContext.mk _ es vs :: subs' =>
      match es with
      | _ :: _ => .next st
      | [] =>
        match vs with
        | [] => .fatal
        | v :: _ =>
          match subs' with
          | sc :: rest =>
            match (FunctionContext.mk σ (sc :: rest)).push_value v with
            | none => .fatal
            | some F' => .next ⟨st.sym_gen, F' :: fs⟩
          | [] =>
            match fs with
            | [] => .done v
            | F2 :: fs2 =>
              match F2.push_value v with
              | none => .fatal
              | some F2' => .next ⟨st.sym_gen, F2' :: fs2⟩

def driveStep (int : Interp) : StepOutcome :=
  match int.fn_context_stack with
  | [] => .fatal
  | F :: fs =>
    match F.pop_eval with
    | none => .fatal
    | some (step, F') =>
      match evalStep step ⟨int.sym_gen, F' :: fs⟩ with
      | none => .fatal
      | some st2 => afterStep st2

inductive RunResult
  | done (v : Value)
  | fatal
  | outOfFuel

def drive : Nat → Interp → RunResult
  | 0, _ => .outOfFuel
  | n + 1, int =>
    match driveStep int with
    | .next st => drive n st
    | .done v => .done v
    | .fatal => .fatal

/-- Modelled from the spec: the program driver (the final `interpreter`
module's `Interpreter::new`/`eval` together with the parser's wrapping of the
program body, both outside src/) evaluates the program inside its own function
context above the root context, so that an unhandled effect surfaces as the
program's result value (spec section 4.8; src provides the step for this,
`WrapperFunction` in src/eval_impls.rs). -/
def runProgram (scope : Scope) (e : Expression) (fuel : Nat) : RunResult :=
  drive fuel ⟨0, [FunctionContext.mk scope [SubContext.mk .Plain [.Expr (.Wrapper e)] []]]⟩

/-- Is a value an `Effect`? (the discrimination the `Handler` step performs). -/
def isEffectValue : Value → Bool
  | .Effect _ _ _ => true
  | _ => false

/-- The symbol carried by an `Effect` program result, if any. -/
def RunResult.effectSymbol : RunResult → Option Nat
  | .done (.Effect s _ _) => some s
  | _ => none

/-! ### Reference-count cells

The shared cell behind `Ref`/`Mut` (src/types/ref_mut.rs, `KcInner`) and
behind `KalRef` (src/kal_ref.rs, `KalRefInner`), with the operations the
claims name.  Each operation is a pure function of the cell it acts on. -/

structure RefCell (α : Type) where
  borrowed : Bool
  ref_count : Nat
  value : α

structure KalRefCell (α : Type) where
  ref_count : Nat
  value : α

/-- `Ref::try_into_mut` (src/types/ref_mut.rs lines 107–123): succeeds iff the
reference count is 1, setting the borrow sentinel; otherwise `None`, and the
cell is not touched. -/
def Ref.try_into_mut {α : Type} (c : RefCell α) : Option (RefCell α) :=
  if c.ref_count = 1 then some { c with borrowed := true } else none

/-- `KalRef::borrow_mut` (src/kal_ref.rs lines 52–59): a mutable view of the
value iff no other reference exists; the cell is unchanged either way. -/
def KalRef.borrow_mut {α : Type} (k : KalRefCell α) : Option α :=
  if k.ref_count > 1 then none else some k.value

/-- `KalRef::try_into_inner` (src/kal_ref.rs lines 60–69): consumes the
reference, giving back the value iff the reference count is 1, and otherwise
returning the reference unchanged. -/
def KalRef.try_into_inner {α : Type} (k : KalRefCell α) : Except (KalRefCell α) α :=
  if k.ref_count > 1 then .error k else .ok k.value

/-! ### The core scope (src/core.rs) -/

/-- Modelled from the spec: the reserved symbols (`interpreter::symbols` and
`interpreter::symbols::error_codes`, declared in the final `interpreter`
module which is not under src/) live at the top of the u64 symbol space. -/
def symbols.ERROR : Nat := 2 ^ 64 - 1

/-- Modelled from the spec: see `symbols.ERROR`. -/
def error_codes.TYPE_ERROR_INT : Nat := 2 ^ 64 - 2

/-- Modelled from the spec: see `symbols.ERROR`. -/
def error_codes.ERROR_LOOP : Nat := 2 ^ 64 - 3

/-- The `errors` object of src/core.rs: exactly two error-code entries
(`type_error_int` and `error_loop`; there is no `int_min_negation` entry). -/
def core_errors : List (Key × Value) :=
  [(Key.Str "type_error_int", Value.Symbol error_codes.TYPE_ERROR_INT),
   (Key.Str "error_loop", Value.Symbol error_codes.ERROR_LOOP)]

/-- `core::scope` (src/core.rs lines 5–20). -/
def core_scope (parent : Option Scope) : Scope :=
  .mk parent
    [("error", Value.Symbol symbols.ERROR),
     ("errors", Value.Object core_errors)]

/-! ### Concrete programs used by the claims -/

/-- A root scope binding the effect symbols `A` and `B` (as a program prologue
`let A = symbol(); let B = symbol();` would). -/
def scopeAB : Scope := .mk none [("A", .Symbol 0), ("B", .Symbol 1)]

/-- `handle A { A: v => continue v } (handle B { B: v => continue v+1 } (send A (send B 7)))`,
each handle operand in its own function context. -/
def passThroughInner : Expression :=
  .Handle (.Wrapper (.Send "A" (some (.Send "B" (some (.Int 7))))))
    [.mk "B" "v" (.mk [] (some (.Continue (some (.Numeric .Add (.Ident "v") (.Int 1))))))]

def passThroughProgram : Expression :=
  .Handle (.Wrapper passThroughInner)
    [.mk "A" "v" (.mk [] (some (.Continue (some (.Ident "v")))))]

/-- `(send A 1) + (send B 2)`: whichever operand is evaluated first captures
the continuation, and its effect escapes to the top level. -/
def sendOrderProgram : Expression :=
  .Numeric .Add (.Send "A" (some (.Int 1))) (.Send "B" (some (.Int 2)))

/-- `handle A { A: v => break 10, A: v => break 20 } (send A 0)`: two arms
with the same symbol. -/
def duplicateArmProgram : Expression :=
  .Handle (.Wrapper (.Send "A" (some (.Int 0))))
    [.mk "A" "v" (.mk [] (some (.Break (some (.Int 10))))),
     .mk "A" "v" (.mk [] (some (.Break (some (.Int 20)))))]

/-- The pattern `[a, ...rest, b]`. -/
def spreadPattern : ListPattern :=
  .mk (identSpine ["a"]) (.spread (.Named "rest") (identSpine ["b"]))

/-- `let [a, ...rest, b] = [1, 2, 3, 4]; [a, rest, b]`. -/
def spreadLetProgram : Expression :=
  .Blk (.mk
    [.Let (.List spreadPattern)
      (.ListLit [.Elem (.Int 1), .Elem (.Int 2), .Elem (.Int 3), .Elem (.Int 4)])]
    (some (.ListLit [.Elem (.Ident "a"), .Elem (.Ident "rest"), .Elem (.Ident "b")])))

/-- The arm `S: x => continue x` of the identity handler. -/
def identityArm (S x : String) : HandleMatch :=
  .mk S x (.mk [] (some (.Continue (some (.Ident x)))))

/-- `handle S { S: x => continue x } e` (the identity handler), with the
operand in its own function context. -/
def identityHandle (S x : String) (e : Expression) : Expression :=
  .Handle (.Wrapper e) [identityArm S x]

/-! ### Frame lemmas

A run that completes inside the function contexts `L` is insensitive to the
contexts below it: these lemmas push a frame `R` of further function contexts
under a completed run and deliver its result value to the head of `R`,
exactly as the drive loop's outer iteration does (src/new_interpreter/mod.rs
lines 206–239). -/

theorem drive_succ_next {st st' : Interp} (h : driveStep st = .next st') (k : Nat) :
    drive (k + 1) st = drive k st' := by
  simp [drive, h]

theorem drive_succ_done {st : Interp} {v : Value} (h : driveStep st = .done v) (k : Nat) :
    drive (k + 1) st = .done v := by
  simp [drive, h]

theorem drive_mono (k : Nat) :
    ∀ (m : Nat) (st : Interp) (w : Value), drive m st = .done w → drive (m + k) st = .done w := by
  intro m
  induction m with
  | zero => intro st w h; simp [drive] at h
  | succ m ih =>
    intro st w h
    rw [show m + 1 + k = (m + k) + 1 by omega]
    cases hd : driveStep st with
    | next st' =>
      rw [drive_succ_next hd] at h ⊢
      exact ih st' w h
    | done v => rw [drive_succ_done hd] at h ⊢; exact h
    | fatal => simp [drive, hd] at h

theorem onTop_frame {g : Nat} {F : FunctionContext} {fs : List FunctionContext}
    {f : FunctionContext → Option FunctionContext} {st : Interp}
    (h : onTop ⟨g, F :: fs⟩ f = some st) :
    ∃ F', st = ⟨g, F' :: fs⟩ ∧
      ∀ R, onTop ⟨g, F :: (fs ++ R)⟩ f = some ⟨g, F' :: (fs ++ R)⟩ := by
  simp only [onTop] at h
  cases hf : f F with
  | none => simp [hf] at h
  | some F' =>
    simp only [hf] at h
    refine ⟨F', ?_, fun R => ?_⟩
    · exact (Option.some.inj h).symm
    · simp only [onTop, hf]

theorem evalStep_frame {step : EvalStep} {g : Nat} {F : FunctionContext}
    {fs : List FunctionContext} {st : Interp}
    (h : evalStep step ⟨g, F :: fs⟩ = some st) :
    ∃ L, st = ⟨g, L⟩ ∧ L ≠ [] ∧
      ∀ R, evalStep step ⟨g, F :: (fs ++ R)⟩ = some ⟨g, L ++ R⟩ := by
  cases step with
  | Expr e =>
    cases e with
    | Wrapper body =>
      simp only [evalStep] at h
      cases hp : F.push_eval .WrapperFunctionInner with
      | none => simp [hp] at h
      | some F' =>
        simp only [hp] at h
        refine ⟨_ :: F' :: fs, (Option.some.inj h).symm, by simp, fun R => ?_⟩
        simp only [evalStep, hp, List.cons_append]
    | Blk b =>
      cases b with
      | mk stmts expr =>
        simp only [evalStep] at h
        obtain ⟨F', hst, hR⟩ := onTop_frame h
        refine ⟨F' :: fs, hst, by simp, fun R => ?_⟩
        simp only [evalStep, List.cons_append]
        exact hR R
    | _ =>
      simp only [evalStep] at h
      obtain ⟨F', hst, hR⟩ := onTop_frame h
      refine ⟨F' :: fs, hst, by simp, fun R => ?_⟩
      simp only [evalStep, List.cons_append]
      exact hR R
  | Stmt s =>
    cases s with
    | _ =>
      simp only [evalStep] at h
      obtain ⟨F', hst, hR⟩ := onTop_frame h
      refine ⟨F' :: fs, hst, by simp, fun R => ?_⟩
      simp only [evalStep, List.cons_append]
      exact hR R
  | SendInner =>
    cases hp : F.pop_value with
    | none => simp [evalStep, hp] at h
    | some p =>
      obtain ⟨v1, F1⟩ := p
      cases v1
      case Symbol symbol =>
        cases hq : F1.pop_value with
        | none => simp [evalStep, hp, hq] at h
        | some q =>
          obtain ⟨value, ctx⟩ := q
          cases fs with
          | nil => simp [evalStep, hp, hq] at h
          | cons F2 fs2 =>
            cases hr : F2.push_value (.Effect symbol value ctx) with
            | none => simp [evalStep, hp, hq, hr] at h
            | some F2' =>
              simp only [evalStep, hp, hq, hr] at h
              refine ⟨F2' :: fs2, (Option.some.inj h).symm, by simp, fun R => ?_⟩
              simp only [evalStep, List.cons_append, hp, hq, hr]
      all_goals simp [evalStep, hp] at h
  | ContinueInner =>
    cases hp : F.pop_value with
    | none => simp [evalStep, hp] at h
    | some p =>
      obtain ⟨v1, F1⟩ := p
      cases hq : F1.pop_sub_context with
      | none => simp [evalStep, hp, hq] at h
      | some q =>
        obtain ⟨sc, F2⟩ := q
        cases hsc : sc.typ with
        | Plain => simp [evalStep, hp, hq, hsc] at h
        | Handle arms ctx =>
          cases hr : F2.push_eval (.Handler arms) with
          | none => simp [evalStep, hp, hq, hsc, hr] at h
          | some F3 =>
            cases hs : ctx.push_value v1 with
            | none => simp [evalStep, hp, hq, hsc, hr, hs] at h
            | some ctx' =>
              simp only [evalStep, hp, hq, hsc, hr, hs] at h
              refine ⟨ctx' :: F3 :: fs, (Option.some.inj h).symm, by simp, fun R => ?_⟩
              simp only [evalStep, List.cons_append, hp, hq, hsc, hr, hs]
        | Loop body =>
          cases hr : F2.push_eval (.LoopContext body) with
          | none => simp [evalStep, hp, hq, hsc, hr] at h
          | some F3 =>
            simp only [evalStep, hp, hq, hsc, hr] at h
            refine ⟨F3 :: fs, (Option.some.inj h).symm, by simp, fun R => ?_⟩
            simp only [evalStep, List.cons_append, hp, hq, hsc, hr]
  | _ =>
    simp only [evalStep] at h
    obtain ⟨F', hst, hR⟩ := onTop_frame h
    refine ⟨F' :: fs, hst, by simp, fun R => ?_⟩
    simp only [evalStep, List.cons_append]
    exact hR R

theorem afterStep_frame_next {g : Nat} {L : List FunctionContext} {st' : Interp}
    (h : afterStep ⟨g, L⟩ = .next st') :
    ∃ L', st' = ⟨g, L'⟩ ∧ L' ≠ [] ∧
      ∀ R, afterStep ⟨g, L ++ R⟩ = .next ⟨g, L' ++ R⟩ := by
  cases L with
  | nil => simp [afterStep] at h
  | cons F fs =>
    cases F with
    | mk σ subs =>
      cases subs with
      | nil => simp [afterStep] at h
      | cons sc subs' =>
        cases sc with
        | mk t es vs =>
          cases es with
          | cons s0 es' =>
            simp only [afterStep] at h
            refine ⟨FunctionContext.mk σ (SubContext.mk t (s0 :: es') vs :: subs') :: fs,
              (StepOutcome.next.inj h).symm, by simp, fun R => ?_⟩
            simp [afterStep]
          | nil =>
            cases vs with
            | nil => simp [afterStep] at h
            | cons v vtail =>
              cases subs' with
              | cons sc2 rest =>
                cases sc2 with
                | mk t2 es2 vs2 =>
                  simp only [afterStep, FunctionContext.push_value] at h
                  refine ⟨FunctionContext.mk σ (SubContext.mk t2 es2 (v :: vs2) :: rest) :: fs,
                    (StepOutcome.next.inj h).symm, by simp, fun R => ?_⟩
                  simp [afterStep, FunctionContext.push_value]
              | nil =>
                cases fs with
                | nil => simp [afterStep] at h
                | cons F2 fs2 =>
                  cases hp : F2.push_value v with
                  | none => simp [afterStep, hp] at h
                  | some F2' =>
                    simp only [afterStep, hp] at h
                    refine ⟨F2' :: fs2, (StepOutcome.next.inj h).symm, by simp, fun R => ?_⟩
                    simp [afterStep, hp]

theorem afterStep_frame_done {g : Nat} {L : List FunctionContext} {v : Value}
    (h : afterStep ⟨g, L⟩ = .done v) {F2 F2' : FunctionContext} {fs2 : List FunctionContext}
    (hp : F2.push_value v = some F2') :
    afterStep ⟨g, L ++ F2 :: fs2⟩ = .next ⟨g, F2' :: fs2⟩ := by
  cases L with
  | nil => simp [afterStep] at h
  | cons F fs =>
    cases F with
    | mk σ subs =>
      cases subs with
      | nil => simp [afterStep] at h
      | cons sc subs' =>
        cases sc with
        | mk t es vs =>
          cases es with
          | cons s0 es' => simp [afterStep] at h
          | nil =>
            cases vs with
            | nil => simp [afterStep] at h
            | cons v0 vtail =>
              cases subs' with
              | cons sc2 rest =>
                cases sc2 with
                | mk t2 es2 vs2 => simp [afterStep, FunctionContext.push_value] at h
              | nil =>
                cases fs with
                | cons F3 fs3 =>
                  cases hq : F3.push_value v0 with
                  | none => simp [afterStep, hq] at h
                  | some F3' => simp [afterStep, hq] at h
                | nil =>
                  simp only [afterStep] at h
                  obtain rfl : v0 = v := StepOutcome.done.inj h
                  simp [afterStep, hp]

theorem driveStep_frame_next {g : Nat} {L : List FunctionContext} {st' : Interp}
    (h : driveStep ⟨g, L⟩ = .next st') :
    ∃ L', st' = ⟨g, L'⟩ ∧ L' ≠ [] ∧
      ∀ R, driveStep ⟨g, L ++ R⟩ = .next ⟨g, L' ++ R⟩ := by
  cases L with
  | nil => simp [driveStep] at h
  | cons F fs =>
    cases hp : F.pop_eval with
    | none => simp [driveStep, hp] at h
    | some p =>
      obtain ⟨step, F'⟩ := p
      cases he : evalStep step ⟨g, F' :: fs⟩ with
      | none => simp [driveStep, hp, he] at h
      | some st2 =>
        simp only [driveStep, hp, he] at h
        obtain ⟨L2, rfl, hL2, hef⟩ := evalStep_frame he
        obtain ⟨L', rfl, hL', haf⟩ := afterStep_frame_next h
        refine ⟨L', rfl, hL', fun R => ?_⟩
        simp only [driveStep, List.cons_append, hp, hef R, haf R]

theorem driveStep_frame_done {g : Nat} {L : List FunctionContext} {v : Value}
    (h : driveStep ⟨g, L⟩ = .done v) {F2 F2' : FunctionContext} {fs2 : List FunctionContext}
    (hp2 : F2.push_value v = some F2') :
    driveStep ⟨g, L ++ F2 :: fs2⟩ = .next ⟨g, F2' :: fs2⟩ := by
  cases L with
  | nil => simp [driveStep] at h
  | cons F fs =>
    cases hp : F.pop_eval with
    | none => simp [driveStep, hp] at h
    | some p =>
      obtain ⟨step, F'⟩ := p
      cases he : evalStep step ⟨g, F' :: fs⟩ with
      | none => simp [driveStep, hp, he] at h
      | some st2 =>
        simp only [driveStep, hp, he] at h
        obtain ⟨L2, rfl, hL2, hef⟩ := evalStep_frame he
        simp only [driveStep, List.cons_append, hp, hef (F2 :: fs2)]
        exact afterStep_frame_done h hp2

theorem drive_frame_done :
    ∀ (n g : Nat) (L : List FunctionContext) (v : Value),
      drive n ⟨g, L⟩ = .done v →
      ∀ (F2 F2' : FunctionContext) (fs2 : List FunctionContext),
        F2.push_value v = some F2' →
        ∀ (m : Nat) (w : Value), drive m ⟨g, F2' :: fs2⟩ = .done w →
          drive (n + m) ⟨g, L ++ F2 :: fs2⟩ = .done w := by
  intro n
  induction n with
  | zero => intro g L v h; simp [drive] at h
  | succ n ih =>
    intro g L v h F2 F2' fs2 hp m w ht
    rw [show n + 1 + m = (n + m) + 1 by omega]
    cases hd : driveStep ⟨g, L⟩ with
    | next st =>
      rw [drive_succ_next hd] at h
      obtain ⟨L', rfl, _, hfr⟩ := driveStep_frame_next hd
      rw [drive_succ_next (hfr (F2 :: fs2))]
      exact ih g L' v h F2 F2' fs2 hp m w ht
    | done v0 =>
      rw [drive_succ_done hd] at h
      obtain rfl : v0 = v := RunResult.done.inj h
      rw [drive_succ_next (driveStep_frame_done hd hp)]
      rw [show n + m = m + n by omega]
      exact drive_mono n m ⟨g, F2' :: fs2⟩ w ht
    | fatal => simp [drive, hd] at h

/-- A `Handler` step whose operand value is not an `Effect` pops it and pushes
it back unchanged: the handler acts as the identity (the catch-all arm of
`Handler::eval`, src/eval_impls.rs line 942). -/
theorem handler_ignores_non_effect (arms : List (Nat × HandleMatch)) (g : Nat)
    (σ' : Scope) (t : SubContextType) (es : List EvalStep) (v : Value)
    (vs : List Value) (subs : List SubContext) (fs : List FunctionContext)
    (hv : isEffectValue v = false) :
    evalStep (.Handler arms)
        ⟨g, FunctionContext.mk σ' (SubContext.mk t es (v :: vs) :: subs) :: fs⟩
      = some ⟨g, FunctionContext.mk σ' (SubContext.mk t es (v :: vs) :: subs) :: fs⟩ := by
  cases v <;>
    simp_all [evalStep, onTop, FunctionContext.pop_value, FunctionContext.push_value,
      isEffectValue]

/-! ### Claim theorems -/

/-- C1: the claim states that `Equal`/`NotEqual` are total across variants and
that comparing an `Object` (left) to a `List` (right) with `Equal` yields
`Bool(false)`.  The code disagrees: the arm `(operator, Object(_), List(_))`
of `ComparisonInner` (src/eval_impls.rs line 130) catches `Equal` and
`NotEqual` on an Object/List pair and raises the fatal comparison error, where
the symmetric scheme of the surrounding arms (and the spec's own note) shows
an `(operator, Object(_), Object(_))` arm was intended.  This theorem
evaluates the code at the failing input: both `Equal` and `NotEqual` on
`Object`/`List` are fatal, at the comparison table and at the machine step. -/
theorem kal_C1_equal_object_list_is_fatal :
    comparisonResult .Equal (.Object []) (.List []) = none ∧
    comparisonResult .NotEqual (.Object []) (.List []) = none ∧
    (∀ (g : Nat) (σ : Scope) (t : SubContextType) (es : List EvalStep)
       (vs : List Value) (subs : List SubContext) (fs : List FunctionContext),
      evalStep (.ComparisonInner .Equal)
        ⟨g, FunctionContext.mk σ
              (SubContext.mk t es (Value.Object [] :: Value.List [] :: vs) :: subs) :: fs⟩
        = none) :=
  ⟨rfl, rfl, fun _ _ _ _ _ _ _ => rfl⟩

/-- C2 (counterexample): the claim states that negating `Int(i64::MIN)`
synthesises a recoverable `ERROR` effect that reaches the top level as an
`Effect` result.  Running `-(i64::MIN)` under the core scope instead aborts
fatally (`NegativeInner` panics, src/eval_impls.rs lines 749–752); the result
is not an `Effect` value. -/
theorem kal_C2_counterexample :
    runProgram (core_scope none) (.Negative (.Int i64min)) 60 = .fatal ∧
    RunResult.fatal ≠ .done (.Effect symbols.ERROR
      (.Object [(Key.Str "code", .Symbol 0)]) (.mk (core_scope none) [])) :=
  ⟨rfl, fun h => nomatch h⟩

/-- C2 (amended): negation of any other integer succeeds with the negated
value, negation of `i64::MIN` is a fatal panic (not a recoverable effect),
and the core scope's `errors` object binds only `type_error_int` and
`error_loop` — there is no `int_min_negation` error code to signal. -/
theorem kal_C2_min_negation_is_fatal :
    (∀ (i : Int), i ≠ i64min →
      ∀ (g : Nat) (σ : Scope) (t : SubContextType) (es : List EvalStep)
        (vs : List Value) (subs : List SubContext) (fs : List FunctionContext),
      evalStep .NegativeInner
          ⟨g, FunctionContext.mk σ (SubContext.mk t es (Value.Int i :: vs) :: subs) :: fs⟩
        = some ⟨g, FunctionContext.mk σ
            (SubContext.mk t es (Value.Int (-i) :: vs) :: subs) :: fs⟩) ∧
    (∀ (g : Nat) (σ : Scope) (t : SubContextType) (es : List EvalStep)
       (vs : List Value) (subs : List SubContext) (fs : List FunctionContext),
      evalStep .NegativeInner
          ⟨g, FunctionContext.mk σ (SubContext.mk t es (Value.Int i64min :: vs) :: subs) :: fs⟩
        = none) ∧
    runProgram (core_scope none) (.Negative (.Int i64min)) 60 = .fatal ∧
    (core_scope none).resolve_binding "errors" = some (.Object core_errors) ∧
    removeField core_errors "int_min_negation" = none := by
  refine ⟨fun i hi g σ t es vs subs fs => ?_, fun _ _ _ _ _ _ _ => rfl, rfl, rfl, rfl⟩
  simp only [evalStep, onTop, FunctionContext.pop_value, FunctionContext.push_value]
  rw [if_neg (by simpa using hi)]

/-- C2 (witness): the amended theorem applied at `i = 1`. -/
theorem kal_C2_min_negation_is_fatal_witness :
    evalStep .NegativeInner
        ⟨0, [FunctionContext.mk (.mk none []) [SubContext.mk .Plain [] [Value.Int 1]]]⟩
      = some ⟨0, [FunctionContext.mk (.mk none []) [SubContext.mk .Plain [] [Value.Int (-1)]]]⟩ :=
  kal_C2_min_negation_is_fatal.1 1 (by decide) 0 (.mk none []) .Plain [] [] [] []

/-- C3 (counterexample): the claim states the two operand steps are pushed
right-then-left so that the left operand is fully evaluated, with its side
effects, before the right.  In `(send A 1) + (send B 2)` it is the RIGHT
operand's send that captures the continuation first: the escaping effect
carries `B`'s symbol (1), not `A`'s (0), because `NumericExpression::eval`
(src/eval_impls.rs lines 694–695) pushes `left` then `right`, leaving the
right operand on top of the LIFO instruction stack. -/
theorem kal_C3_counterexample :
    RunResult.effectSymbol (runProgram scopeAB sendOrderProgram 100) = some 1 ∧
    RunResult.effectSymbol (runProgram scopeAB sendOrderProgram 100) ≠ some 0 :=
  ⟨rfl, by decide⟩

/-- C3 (amended): for every binary arithmetic and comparison expression the
evaluator pushes the sub-expression steps in order left then right, so the
RIGHT operand is fully evaluated (with its side effects) before the left; the
combining step then pops the left value first (the left value, pushed last,
is on top), then the right, so the operands pair correctly — witnessed
end-to-end by subtraction and ordering, which are order-sensitive. -/
theorem kal_C3_operands_scheduled_left_then_right :
    (∀ (op : NumericOperator) (l r : Expression) (g : Nat) (σ : Scope)
       (t : SubContextType) (es : List EvalStep) (vs : List Value)
       (subs : List SubContext) (fs : List FunctionContext),
      evalStep (.Expr (.Numeric op l r))
          ⟨g, FunctionContext.mk σ (SubContext.mk t es vs :: subs) :: fs⟩
        = some ⟨g, FunctionContext.mk σ
            (SubContext.mk t (.Expr r :: .Expr l :: .NumericInner op :: es) vs :: subs) :: fs⟩) ∧
    (∀ (op : ComparisonOperator) (l r : Expression) (g : Nat) (σ : Scope)
       (t : SubContextType) (es : List EvalStep) (vs : List Value)
       (subs : List SubContext) (fs : List FunctionContext),
      evalStep (.Expr (.Comparison op l r))
          ⟨g, FunctionContext.mk σ (SubContext.mk t es vs :: subs) :: fs⟩
        = some ⟨g, FunctionContext.mk σ
            (SubContext.mk t (.Expr r :: .Expr l :: .ComparisonInner op :: es) vs :: subs) :: fs⟩) ∧
    (∀ (a b : Int) (g : Nat) (σ : Scope) (t : SubContextType) (es : List EvalStep)
       (vs : List Value) (subs : List SubContext) (fs : List FunctionContext),
      evalStep (.NumericInner .Subtract)
          ⟨g, FunctionContext.mk σ
                (SubContext.mk t es (Value.Int a :: Value.Int b :: vs) :: subs) :: fs⟩
        = some ⟨g, FunctionContext.mk σ
            (SubContext.mk t es (Value.Int (a - b) :: vs) :: subs) :: fs⟩) ∧
    (∀ a b : Int,
      runProgram scopeAB (.Numeric .Subtract (.Int a) (.Int b)) 50 = .done (.Int (a - b))) ∧
    (∀ a b : Int,
      runProgram scopeAB (.Comparison .Less (.Int a) (.Int b)) 50
        = .done (.Bool (fullCompare .Less a b))) :=
  ⟨fun _ _ _ _ _ _ _ _ _ _ => rfl, fun _ _ _ _ _ _ _ _ _ _ => rfl,
   fun _ _ _ _ _ _ _ _ _ => rfl, fun _ _ => rfl, fun _ _ => rfl⟩

/-- C4: the pass-through scenario.
`handle A { A: v => continue v } (handle B { B: v => continue v+1 } (send A (send B 7)))`
evaluates to `Int(8)`: the inner handler has no arm for `A`, so it re-sends
the symbol/value above itself wrapped in a `Continue` (src/eval_impls.rs
lines 933–938), and when the outer handler resumes, the inner handler resumes
the originally captured continuation with the value. -/
theorem kal_C4_passthrough_resumes :
    runProgram scopeAB passThroughProgram 400 = .done (.Int 8) := rfl

/-- C5: the identity handler is the identity on pure computations.  The
hypotheses say `e` is pure: evaluated alone in a fresh function context (at
the scope depth of either program) it completes normally with a value `v`
that is not an `Effect` — a send escaping `e` or an error would make those
runs fatal instead.  Then the program `handle S { S: x => continue x } e`
finishes with exactly `v`, as does the program `e` alone: the `Handler` step
that receives the operand's non-`Effect` value acts as the identity and
yields it unchanged (`Handler::eval`, src/eval_impls.rs line 942), stated in
full generality by the last conjunct. -/
theorem kal_C5_identity_handler_is_identity
    (σ : Scope) (S x : String) (s : Nat) (e : Expression) (v : Value) (n n1 : Nat)
    (hS : σ.resolve_binding S = some (.Symbol s))
    (h2 : drive n ⟨0, [FunctionContext.mk (Scope.extend (Scope.extend σ))
            [SubContext.mk .Plain [.Expr e] []]]⟩ = .done v)
    (h1 : drive n1 ⟨0, [FunctionContext.mk (Scope.extend σ)
            [SubContext.mk .Plain [.Expr e] []]]⟩ = .done v)
    (hv : isEffectValue v = false) :
    runProgram σ (identityHandle S x e) (n + 8) = .done v ∧
    runProgram σ e (n1 + 2) = .done v ∧
    (∀ (arms : List (Nat × HandleMatch)) (g : Nat) (σ' : Scope) (t : SubContextType)
       (es : List EvalStep) (vs : List Value) (subs : List SubContext)
       (fs : List FunctionContext),
      evalStep (.Handler arms)
          ⟨g, FunctionContext.mk σ' (SubContext.mk t es (v :: vs) :: subs) :: fs⟩
        = some ⟨g, FunctionContext.mk σ' (SubContext.mk t es (v :: vs) :: subs) :: fs⟩) := by
  have eC : driveStep ⟨0, [FunctionContext.mk σ
      [SubContext.mk .Plain [.WrapperFunctionInner] [v]]]⟩ = .done v := rfl
  have ht1 : drive 1 ⟨0, [FunctionContext.mk σ
      [SubContext.mk .Plain [.WrapperFunctionInner] [v]]]⟩ = .done v :=
    drive_succ_done eC 0
  refine ⟨?_, ?_, fun arms g σ' t es vs subs fs =>
    handler_ignores_non_effect arms g σ' t es v vs subs fs hv⟩
  · -- the handled program
    have e0 : driveStep ⟨0, [FunctionContext.mk σ
          [SubContext.mk .Plain [.Expr (.Wrapper (.Handle (.Wrapper e) [identityArm S x]))] []]]⟩
        = .next ⟨0, [FunctionContext.mk (Scope.extend σ)
            [SubContext.mk .Plain [.Expr (.Handle (.Wrapper e) [identityArm S x])] []],
          FunctionContext.mk σ [SubContext.mk .Plain [.WrapperFunctionInner] []]]⟩ := rfl
    have e1 : driveStep ⟨0, [FunctionContext.mk (Scope.extend σ)
            [SubContext.mk .Plain [.Expr (.Handle (.Wrapper e) [identityArm S x])] []],
          FunctionContext.mk σ [SubContext.mk .Plain [.WrapperFunctionInner] []]]⟩
        = .next ⟨0, [FunctionContext.mk (Scope.extend σ)
            [SubContext.mk .Plain
              [.Expr (.Ident S), .CreateHandler [identityArm S x] (.Wrapper e)] []],
          FunctionContext.mk σ [SubContext.mk .Plain [.WrapperFunctionInner] []]]⟩ := rfl
    have e2 : driveStep ⟨0, [FunctionContext.mk (Scope.extend σ)
            [SubContext.mk .Plain
              [.Expr (.Ident S), .CreateHandler [identityArm S x] (.Wrapper e)] []],
          FunctionContext.mk σ [SubContext.mk .Plain [.WrapperFunctionInner] []]]⟩
        = .next ⟨0, [FunctionContext.mk (Scope.extend σ)
            [SubContext.mk .Plain
              [.CreateHandler [identityArm S x] (.Wrapper e)] [.Symbol s]],
          FunctionContext.mk σ [SubContext.mk .Plain [.WrapperFunctionInner] []]]⟩ := by
      simp only [driveStep, FunctionContext.pop_eval, evalStep, onTop, Scope.extend,
        Scope.resolve_binding, lookupBinding, hS, FunctionContext.push_value, afterStep]
    have e3 : driveStep ⟨0, [FunctionContext.mk (Scope.extend σ)
            [SubContext.mk .Plain
              [.CreateHandler [identityArm S x] (.Wrapper e)] [.Symbol s]],
          FunctionContext.mk σ [SubContext.mk .Plain [.WrapperFunctionInner] []]]⟩
        = .next ⟨0, [FunctionContext.mk (Scope.extend σ)
            [SubContext.mk .Plain
              [.Expr (.Wrapper e), .Handler [(s, identityArm S x)]] []],
          FunctionContext.mk σ [SubContext.mk .Plain [.WrapperFunctionInner] []]]⟩ := rfl
    have e4 : driveStep ⟨0, [FunctionContext.mk (Scope.extend σ)
            [SubContext.mk .Plain
              [.Expr (.Wrapper e), .Handler [(s, identityArm S x)]] []],
          FunctionContext.mk σ [SubContext.mk .Plain [.WrapperFunctionInner] []]]⟩
        = .next ⟨0, [FunctionContext.mk (Scope.extend (Scope.extend σ))
            [SubContext.mk .Plain [.Expr e] []],
          FunctionContext.mk (Scope.extend σ)
            [SubContext.mk .Plain
              [.WrapperFunctionInner, .Handler [(s, identityArm S x)]] []],
          FunctionContext.mk σ [SubContext.mk .Plain [.WrapperFunctionInner] []]]⟩ := rfl
    have eA : driveStep ⟨0, [FunctionContext.mk (Scope.extend σ)
            [SubContext.mk .Plain
              [.WrapperFunctionInner, .Handler [(s, identityArm S x)]] [v]],
          FunctionContext.mk σ [SubContext.mk .Plain [.WrapperFunctionInner] []]]⟩
        = .next ⟨0, [FunctionContext.mk (Scope.extend σ)
            [SubContext.mk .Plain [.Handler [(s, identityArm S x)]] [v]],
          FunctionContext.mk σ [SubContext.mk .Plain [.WrapperFunctionInner] []]]⟩ := rfl
    have eB : driveStep ⟨0, [FunctionContext.mk (Scope.extend σ)
            [SubContext.mk .Plain [.Handler [(s, identityArm S x)]] [v]],
          FunctionContext.mk σ [SubContext.mk .Plain [.WrapperFunctionInner] []]]⟩
        = .next ⟨0, [FunctionContext.mk σ
            [SubContext.mk .Plain [.WrapperFunctionInner] [v]]]⟩ := by
      have hH := handler_ignores_non_effect [(s, identityArm S x)] 0 (Scope.extend σ)
        .Plain [] v [] []
        [FunctionContext.mk σ [SubContext.mk .Plain [.WrapperFunctionInner] []]] hv
      simp only [driveStep, FunctionContext.pop_eval, hH, afterStep,
        FunctionContext.push_value]
    have ht3 : drive 3 ⟨0, [FunctionContext.mk (Scope.extend σ)
            [SubContext.mk .Plain
              [.WrapperFunctionInner, .Handler [(s, identityArm S x)]] [v]],
          FunctionContext.mk σ [SubContext.mk .Plain [.WrapperFunctionInner] []]]⟩
        = .done v := by
      rw [show (3 : Nat) = 2 + 1 from rfl, drive_succ_next eA,
        show (2 : Nat) = 1 + 1 from rfl, drive_succ_next eB]
      exact ht1
    rw [show n + 8 = n + 3 + 1 + 1 + 1 + 1 + 1 by omega]
    show drive (n + 3 + 1 + 1 + 1 + 1 + 1) ⟨0, [FunctionContext.mk σ
        [SubContext.mk .Plain
          [.Expr (.Wrapper (.Handle (.Wrapper e) [identityArm S x]))] []]]⟩ = .done v
    rw [drive_succ_next e0, drive_succ_next e1, drive_succ_next e2,
      drive_succ_next e3, drive_succ_next e4]
    exact drive_frame_done n 0
      [FunctionContext.mk (Scope.extend (Scope.extend σ)) [SubContext.mk .Plain [.Expr e] []]]
      v h2
      (FunctionContext.mk (Scope.extend σ)
        [SubContext.mk .Plain [.WrapperFunctionInner, .Handler [(s, identityArm S x)]] []])
      (FunctionContext.mk (Scope.extend σ)
        [SubContext.mk .Plain [.WrapperFunctionInner, .Handler [(s, identityArm S x)]] [v]])
      [FunctionContext.mk σ [SubContext.mk .Plain [.WrapperFunctionInner] []]]
      rfl 3 v ht3
  · -- the unhandled program
    have u0 : driveStep ⟨0, [FunctionContext.mk σ
          [SubContext.mk .Plain [.Expr (.Wrapper e)] []]]⟩
        = .next ⟨0, [FunctionContext.mk (Scope.extend σ) [SubContext.mk .Plain [.Expr e] []],
          FunctionContext.mk σ [SubContext.mk .Plain [.WrapperFunctionInner] []]]⟩ := rfl
    rw [show n1 + 2 = n1 + 1 + 1 by omega]
    show drive (n1 + 1 + 1) ⟨0, [FunctionContext.mk σ
        [SubContext.mk .Plain [.Expr (.Wrapper e)] []]]⟩ = .done v
    rw [drive_succ_next u0]
    exact drive_frame_done n1 0
      [FunctionContext.mk (Scope.extend σ) [SubContext.mk .Plain [.Expr e] []]]
      v h1
      (FunctionContext.mk σ [SubContext.mk .Plain [.WrapperFunctionInner] []])
      (FunctionContext.mk σ [SubContext.mk .Plain [.WrapperFunctionInner] [v]])
      [] rfl 1 v ht1

/-- C5 (witness): the identity handler around the pure expression `5`. -/
theorem kal_C5_identity_handler_witness :
    runProgram scopeAB (identityHandle "A" "x" (.Int 5)) 9 = .done (.Int 5) ∧
    runProgram scopeAB (.Int 5) 3 = .done (.Int 5) := by
  have h := kal_C5_identity_handler_is_identity scopeAB "A" "x" 0 (.Int 5) (.Int 5) 1 1
    rfl rfl rfl rfl
  exact ⟨h.1, h.2.1⟩

/-- C6: `continue expr` first schedules `expr` (its step goes on top of the
freshly-pushed `ContinueInner`); `ContinueInner` then discards exactly the
current sub-context — its whole instruction and value stacks — and dispatches
on the discarded sub-context's kind (src/eval_impls.rs lines 1036–1063):
`Handle(handler, ctx)` re-installs the handler step on the enclosing
sub-context, pushes `ctx` as the current function context, and pushes the
value onto that restored context's value stack; `Loop` re-pushes the loop
step and discards the value; `Plain` is fatal. -/
theorem kal_C6_continue_discards_one_subcontext :
    (∀ (e : Expression) (g : Nat) (σ : Scope) (t : SubContextType)
       (es : List EvalStep) (vs : List Value) (subs : List SubContext)
       (fs : List FunctionContext),
      evalStep (.Expr (.Continue (some e)))
          ⟨g, FunctionContext.mk σ (SubContext.mk t es vs :: subs) :: fs⟩
        = some ⟨g, FunctionContext.mk σ
            (SubContext.mk t (.Expr e :: .ContinueInner :: es) vs :: subs) :: fs⟩) ∧
    (∀ (g : Nat) (σ σc : Scope) (arms : List (Nat × HandleMatch))
       (tc t2 : SubContextType) (es esc es2 : List EvalStep) (v : Value)
       (vs vsc vs2 : List Value) (subs subsc : List SubContext)
       (fs : List FunctionContext),
      evalStep .ContinueInner
          ⟨g, FunctionContext.mk σ
                (SubContext.mk
                    (.Handle arms (.mk σc (SubContext.mk tc esc vsc :: subsc)))
                    es (v :: vs)
                  :: SubContext.mk t2 es2 vs2 :: subs) :: fs⟩
        = some ⟨g, FunctionContext.mk σc (SubContext.mk tc esc (v :: vsc) :: subsc)
                  :: FunctionContext.mk σ
                      (SubContext.mk t2 (.Handler arms :: es2) vs2 :: subs) :: fs⟩) ∧
    (∀ (g : Nat) (σ : Scope) (body : Block) (t2 : SubContextType)
       (es es2 : List EvalStep) (v : Value) (vs vs2 : List Value)
       (subs : List SubContext) (fs : List FunctionContext),
      evalStep .ContinueInner
          ⟨g, FunctionContext.mk σ
                (SubContext.mk (.Loop body) es (v :: vs)
                  :: SubContext.mk t2 es2 vs2 :: subs) :: fs⟩
        = some ⟨g, FunctionContext.mk σ
            (SubContext.mk t2 (.LoopContext body :: es2) vs2 :: subs) :: fs⟩) ∧
    (∀ (g : Nat) (σ : Scope) (es : List EvalStep) (v : Value) (vs : List Value)
       (subs : List SubContext) (fs : List FunctionContext),
      evalStep .ContinueInner
          ⟨g, FunctionContext.mk σ (SubContext.mk .Plain es (v :: vs) :: subs) :: fs⟩
        = none) := by
  refine ⟨fun _ _ _ _ _ _ _ _ => rfl, fun _ _ _ _ _ _ _ _ _ _ _ _ _ _ _ _ => rfl,
    fun _ _ _ _ _ _ _ _ _ _ _ => rfl, fun _ _ _ _ _ _ _ => rfl⟩

/-- C9: an `if` expression unconditionally takes its first `IfPart`
(src/eval_impls.rs line 235, `self.ifs.get(0).unwrap()`): when the `ifs` list
is non-empty, the first condition's step is scheduled on top of the `IfInner`
dispatcher, so it is evaluated exactly once before any branch decision; when
the `ifs` list is empty the unwrap panics and the whole evaluation is fatal —
it does not yield `Null`. -/
theorem kal_C9_if_requires_first_condition :
    (∀ (p : IfPart) (rest : List IfPart) (els : Option Block) (g : Nat)
       (σ : Scope) (t : SubContextType) (es : List EvalStep) (vs : List Value)
       (subs : List SubContext) (fs : List FunctionContext),
      evalStep (.Expr (.If (p :: rest) els))
          ⟨g, FunctionContext.mk σ (SubContext.mk t es vs :: subs) :: fs⟩
        = some ⟨g, FunctionContext.mk σ
            (SubContext.mk t (.Expr p.cond :: .IfInner 0 (p :: rest) els :: es) vs :: subs)
              :: fs⟩) ∧
    (∀ (els : Option Block) (g : Nat) (σ : Scope) (t : SubContextType)
       (es : List EvalStep) (vs : List Value) (subs : List SubContext)
       (fs : List FunctionContext),
      evalStep (.Expr (.If [] els))
          ⟨g, FunctionContext.mk σ (SubContext.mk t es vs :: subs) :: fs⟩ = none) ∧
    (∀ (σ : Scope) (els : Option Block), runProgram σ (.If [] els) 10 = .fatal) ∧
    RunResult.fatal ≠ .done .Null := by
  refine ⟨fun _ _ _ _ _ _ _ _ _ _ => rfl, fun _ _ _ _ _ _ _ _ => rfl,
    fun _ _ => rfl, fun h => nomatch h⟩

/-- C8: conversion to an exclusive mutable view succeeds exactly when the
reference count is 1 (`Ref::try_into_mut`, src/types/ref_mut.rs lines
107–123; `KalRef::borrow_mut`, src/kal_ref.rs lines 52–59), and on a count
greater than 1 the conversion fails with the reference and its value
unchanged (`KalRef::try_into_inner` hands the reference back untouched). -/
theorem kal_C8_exclusive_mut_iff_refcount_one {α : Type}
    (c : RefCell α) (k : KalRefCell α) (hk : 1 ≤ k.ref_count) :
    ((Ref.try_into_mut c).isSome ↔ c.ref_count = 1) ∧
    (1 < c.ref_count → Ref.try_into_mut c = none) ∧
    ((KalRef.borrow_mut k).isSome ↔ k.ref_count = 1) ∧
    (1 < k.ref_count → KalRef.try_into_inner k = .error k) ∧
    (k.ref_count = 1 → KalRef.try_into_inner k = .ok k.value) := by
  refine ⟨?_, ?_, ?_, ?_, ?_⟩
  · unfold Ref.try_into_mut; split <;> simp_all
  · intro h; unfold Ref.try_into_mut; rw [if_neg]; omega
  · unfold KalRef.borrow_mut
    split <;> simp <;> omega
  · intro h; unfold KalRef.try_into_inner; rw [if_pos h]
  · intro h; unfold KalRef.try_into_inner; rw [if_neg]; omega

/-- C8 (witness): a cell of count 2 cannot be made mutable; a cell of count 1
can be borrowed mutably. -/
theorem kal_C8_exclusive_mut_witness :
    Ref.try_into_mut (⟨false, 2, (0 : Nat)⟩ : RefCell Nat) = none ∧
    (KalRef.borrow_mut (⟨1, (7 : Nat)⟩ : KalRefCell Nat)).isSome = true := by
  have h := kal_C8_exclusive_mut_iff_refcount_one
    (⟨false, 2, (0 : Nat)⟩ : RefCell Nat) (⟨1, (7 : Nat)⟩ : KalRefCell Nat) (by decide)
  exact ⟨h.2.1 (by decide), by simpa using h.2.2.1.mpr rfl⟩

/-- The `CreateHandler` pop loop on a stack of symbol values: it collects them
in pop order. -/
theorem popSymbols_map (ns : List Nat) (vs : List Value) :
    popSymbols ns.length (ns.map Value.Symbol ++ vs) = some (ns, vs) := by
  induction ns with
  | nil => simp [popSymbols]
  | cons n ns ih => simp [popSymbols, ih]

/-- C10: arm symbols are evaluated eagerly and paired positionally with their
own arms (`CreateHandler` pops one symbol per arm in source order and zips,
src/eval_impls.rs lines 952–971), and `Handler` dispatch is a first-match
search over that list (line 917–921), so an effect whose symbol is shared by
several arms runs the first such arm in source order. -/
theorem kal_C10_first_matching_arm_wins :
    (∀ (arms : List HandleMatch) (expr : Expression) (g : Nat) (σ : Scope)
       (t : SubContextType) (es : List EvalStep) (vs : List Value)
       (subs : List SubContext) (fs : List FunctionContext),
      evalStep (.Expr (.Handle expr arms))
          ⟨g, FunctionContext.mk σ (SubContext.mk t es vs :: subs) :: fs⟩
        = some ⟨g, FunctionContext.mk σ
            (SubContext.mk t
              ((arms.map fun a => EvalStep.Expr (.Ident a.symbol)).reverse ++
                .CreateHandler arms expr :: es) vs :: subs) :: fs⟩) ∧
    (∀ (arms : List HandleMatch) (expr : Expression) (syms : List Nat) (g : Nat)
       (σ : Scope) (t : SubContextType) (es : List EvalStep) (vs : List Value)
       (subs : List SubContext) (fs : List FunctionContext),
      syms.length = arms.length →
      evalStep (.CreateHandler arms expr)
          ⟨g, FunctionContext.mk σ
                (SubContext.mk t es (syms.map Value.Symbol ++ vs) :: subs) :: fs⟩
        = some ⟨g, FunctionContext.mk σ
            (SubContext.mk t (.Expr expr :: .Handler (syms.zip arms) :: es) vs :: subs)
              :: fs⟩) ∧
    (∀ (s : Nat) (a1 a2 : HandleMatch) (tail : List (Nat × HandleMatch)),
      List.find? (fun x => x.1 == s) ((s, a1) :: (s, a2) :: tail) = some (s, a1)) ∧
    (∀ (arms : List (Nat × HandleMatch)) (symbol s' : Nat) (arm : HandleMatch)
       (value : Value) (ctx : FunctionContext) (g : Nat) (σ : Scope)
       (t : SubContextType) (es : List EvalStep) (vs : List Value)
       (subs : List SubContext) (fs : List FunctionContext),
      arms.find? (fun a => a.1 == symbol) = some (s', arm) →
      evalStep (.Handler arms)
          ⟨g, FunctionContext.mk σ
                (SubContext.mk t es (Value.Effect symbol value ctx :: vs) :: subs) :: fs⟩
        = some ⟨g, FunctionContext.mk σ
            (SubContext.mk (.Handle arms ctx)
                [.PushScope, .LetInner (.Ident arm.param), .Expr (.Blk arm.block), .PopScope]
                [value]
              :: SubContext.mk t es vs :: subs) :: fs⟩) ∧
    runProgram scopeAB duplicateArmProgram 300 = .done (.Int 10) := by
  refine ⟨?_, ?_, ?_, ?_, rfl⟩
  · intro arms expr g σ t es vs subs fs
    simp [evalStep, onTop, FunctionContext.push_evals, List.reverseAux_eq]
  · intro arms expr syms g σ t es vs subs fs h
    simp only [evalStep, onTop]
    rw [← h, popSymbols_map]
  · intro s a1 a2 tail
    simp [List.find?]
  · intro arms symbol s' arm value ctx g σ t es vs subs fs h
    simp [evalStep, onTop, FunctionContext.pop_value, FunctionContext.push_sub_context,
      FunctionContext.scope, FunctionContext.sub_context_stack, h]

/-- C10 (witness): the pairing and dispatch facts at concrete inputs — one
arm list with two identical symbols dispatches to the first arm. -/
theorem kal_C10_first_matching_arm_wins_witness :
    evalStep (.Handler [(5, HandleMatch.mk "A" "x" (.mk [] none)),
                        (5, HandleMatch.mk "A" "y" (.mk [] none))])
        ⟨0, [FunctionContext.mk (.mk none [])
              [SubContext.mk .Plain [] [Value.Effect 5 (.Int 3) (.mk (.mk none []) [])]]]⟩
      = some ⟨0, [FunctionContext.mk (.mk none [])
            [SubContext.mk (.Handle [(5, HandleMatch.mk "A" "x" (.mk [] none)),
                                     (5, HandleMatch.mk "A" "y" (.mk [] none))]
                  (.mk (.mk none []) []))
              [.PushScope, .LetInner (.Ident "x"), .Expr (.Blk (.mk [] none)), .PopScope]
              [.Int 3],
             SubContext.mk .Plain [] []]]⟩ :=
  kal_C10_first_matching_arm_wins.2.2.2.1
    [(5, HandleMatch.mk "A" "x" (.mk [] none)), (5, HandleMatch.mk "A" "y" (.mk [] none))]
    5 5 (HandleMatch.mk "A" "x" (.mk [] none)) (.Int 3) (.mk (.mk none []) [])
    0 (.mk none []) .Plain [] [] [] []
    (kal_C10_first_matching_arm_wins.2.2.1 5 (HandleMatch.mk "A" "x" (.mk [] none))
      (HandleMatch.mk "A" "y" (.mk [] none)) [])

/-- The spine of identifier patterns has the length of its name list. -/
theorem identSpine_length (names : List String) :
    (identSpine names).length = names.length := by
  induction names with
  | nil => rfl
  | cons n ns ih => simp [identSpine, ListSubPatterns.length, ih]

/-- Binding a list of plain identifier sub-patterns consumes one value each, in
order: it succeeds exactly when enough values remain, pairing the names with
the first values and leaving the rest. -/
theorem bind_subpatterns_idents (names : List String) (vals : List Value) :
    bind_subpatterns (identSpine names) vals =
      if names.length ≤ vals.length
      then some (names.zip vals, vals.drop names.length)
      else none := by
  induction names generalizing vals with
  | nil => simp [identSpine, bind_subpatterns]
  | cons n ns ih =>
    cases vals with
    | nil => simp [identSpine, bind_subpatterns, bind_subpattern]
    | cons v vs =>
      by_cases h : ns.length ≤ vs.length <;>
        simp [identSpine, bind_subpatterns, bind_subpattern, ih, h, Nat.succ_le_succ_iff]

/-- C7: destructuring a (uniquely referenced) list value against a list
pattern with a spread succeeds exactly when the list has at least
`len(before) + len(after)` elements; the before patterns bind the first
elements in order, the spread binds the middle slice (as a `List` when named,
discarded when anonymous), and the after patterns bind the trailing elements
(src/eval_impls.rs lines 566–630).  In particular
`let [a, ...rest, b] = [1, 2, 3, 4]` binds `a ↦ 1`, `rest ↦ [2, 3]`,
`b ↦ 4`. -/
theorem kal_C7_spread_list_pattern
    (before after : List String) (spread : SpreadPattern) (vals : List Value) :
    (before.length + after.length ≤ vals.length →
      do_list_pattern_bindings
          (.mk (identSpine before) (.spread spread (identSpine after))) (Value.List vals)
        = some (before.zip vals ++
            (match spread with
             | .Named name => [(name, Value.List
                 ((vals.drop before.length).take
                   (vals.length - (before.length + after.length))))]
             | .Unnamed => []) ++
            after.zip (vals.drop (vals.length - after.length)))) ∧
    (vals.length < before.length + after.length →
      do_list_pattern_bindings
          (.mk (identSpine before) (.spread spread (identSpine after))) (Value.List vals)
        = none) ∧
    runProgram scopeAB spreadLetProgram 100
      = .done (.List [.Int 1, .List [.Int 2, .Int 3], .Int 4]) := by
  refine ⟨?_, ?_, by set_option maxRecDepth 100000 in with_unfolding_all rfl⟩
  · intro h
    have hb : before.length ≤ vals.length := by omega
    simp only [do_list_pattern_bindings, do_list_pattern_bindings_no_unwrap,
      identSpine_length, bind_subpatterns_idents, if_pos hb]
    rw [if_neg (by omega)]
    have hdrop :
        (vals.drop before.length).drop
            (vals.length - (before.length + after.length))
          = vals.drop (vals.length - after.length) := by
      rw [List.drop_drop]
      congr 1
      omega
    rw [hdrop]
    have hnil :
        (vals.drop (vals.length - after.length)).drop after.length = [] := by
      rw [List.drop_drop]
      apply List.drop_eq_nil_of_le
      omega
    have hle' : after.length ≤ vals.length - (vals.length - after.length) := by omega
    cases spread <;> simp [hle', finish_after, spread_wrap, hnil]
  · intro h
    by_cases hb : before.length ≤ vals.length <;>
      simp [do_list_pattern_bindings, do_list_pattern_bindings_no_unwrap,
        identSpine_length, bind_subpatterns_idents, hb, h]

/-- C7 (witness): the claim's concrete example. -/
theorem kal_C7_spread_list_pattern_witness :
    do_list_pattern_bindings
        (ListPattern.mk (identSpine ["a"]) (.spread (.Named "rest") (identSpine ["b"])))
        (Value.List [.Int 1, .Int 2, .Int 3, .Int 4])
      = some [("a", .Int 1), ("rest", .List [.Int 2, .Int 3]), ("b", .Int 4)] := by
  have h := (kal_C7_spread_list_pattern ["a"] ["b"] (.Named "rest")
      [.Int 1, .Int 2, .Int 3, .Int 4]).1 (by decide)
  simpa using h
